import Mathlib

/-!
Verification development for `bigslice` (`modules/data/hmm.py`).

The file embeds the profile data model (`HMMDatabase.HMM`), the profile-file
parser (`HMM.from_file`), the member-level save (`HMM.__save__`) and the
reconciliation engine (`HMMDatabase.save`) as executable Lean functions, and
settles the specification claims C1 to C10 about them.

The relational storage engine (`Database`, not part of the sources) is
modelled from the specification of the Persistence Gateway: three append-only
relations (`hmm_db`, `hmm`, `subpfam`), `select` returning the matching rows
in table order, and `insert` appending one row and returning a freshly
assigned identifier.  Python exceptions are modelled with `Except`, and every
operation also returns the store state reached at the point of return so that
frame properties can be stated.
-/

set_option autoImplicit false

namespace Bigslice

/-- One hmm model, embedding `HMMDatabase.HMM.__init__`: `id`, `parent_id`
and `db_id` default to the sentinel `-1`, `accession` is optional, `name`
and `model_length` are required. -/
structure HMM where
  id : Int
  parent_id : Int
  db_id : Int
  accession : Option String
  name : String
  model_length : Int
  deriving DecidableEq, Repr

/-- Accumulated key/value state of the parser, embedding the `properties`
dict of `HMM.from_file`: only the keys `name`, `accession` and
`model_length` ever occur. -/
structure Props where
  name : Option String
  accession : Option String
  model_length : Option Int
  deriving DecidableEq, Repr

/-- The empty `properties` dict. -/
def emptyProps : Props := ⟨none, none, none⟩

/-- Errors raised by the embedded code.  `lookupFailed` is the IndexError
of `fetchall()[0]` on an empty result (the referential-integrity failure of
the spec), `conflict` the explicit `Exception("conflicting HMM entry...")`,
`assertionFailed` a failed `assert`, `keyError` a missing required dict key
in `HMM.__init__`, and `formatError` a `ValueError` from `int(...)`. -/
inductive Err where
  | lookupFailed
  | conflict (name : String)
  | assertionFailed
  | keyError (key : String)
  | formatError
  deriving DecidableEq, Repr

/-- Decidable equality on results, used to settle concrete runs by
`decide`. -/
instance instDecEqExcept {ε α : Type} [DecidableEq ε] [DecidableEq α] :
    DecidableEq (Except ε α)
  | .ok a, .ok b =>
    match decEq a b with
    | isTrue h => isTrue (by rw [h])
    | isFalse h => isFalse (by intro hc; cases hc; exact h rfl)
  | .error a, .error b =>
    match decEq a b with
    | isTrue h => isTrue (by rw [h])
    | isFalse h => isFalse (by intro hc; cases hc; exact h rfl)
  | .ok _, .error _ => isFalse (by intro hc; cases hc)
  | .error _, .ok _ => isFalse (by intro hc; cases hc)

/-! ### Python string primitives used by the parser -/

/-- The whitespace class of Python `str.strip()` and friends
(`Py_UNICODE_ISSPACE`): `\t\n\v\f\r`, the separators `\x1c`-`\x1f`, the
space, NEL, NBSP, and the Unicode space code points 0x1680,
0x2000-0x200A, 0x2028, 0x2029, 0x202F, 0x205F, 0x3000. -/
def pyIsSpace (c : Char) : Bool :=
  let n := c.toNat
  (0x09 ≤ n && n ≤ 0x0D) || (0x1C ≤ n && n ≤ 0x1F) || n == 0x20 ||
    n == 0x85 || n == 0xA0 || n == 0x1680 ||
    (0x2000 ≤ n && n ≤ 0x200A) || n == 0x2028 || n == 0x2029 ||
    n == 0x202F || n == 0x205F || n == 0x3000

/-- Python `str.rstrip()`: drop trailing whitespace. -/
def pyRstrip (s : String) : String :=
  ⟨(s.data.reverse.dropWhile pyIsSpace).reverse⟩

/-- Does the list `cs` start with the list `lead`? -/
def charsLead : List Char → List Char → Bool
  | [], _ => true
  | _ :: _, [] => false
  | c :: cs, d :: ds => c == d && charsLead cs ds

/-- Python `str.startswith`. -/
def pyStartsWith (s lead : String) : Bool :=
  charsLead lead.data s.data

/-- Python `str.split(" ")`: split on every single space character,
keeping empty fields. -/
def splitSpace : List Char → List (List Char)
  | [] => [[]]
  | c :: rest =>
    if c = ' ' then [] :: splitSpace rest
    else
      match splitSpace rest with
      | [] => [[c]]
      | g :: gs => (c :: g) :: gs

/-- Python `line.split(" ")[-1]`: the last space-separated field. -/
def lastField (s : String) : String :=
  ⟨(splitSpace s.data).getLastD []⟩

/-- Continuation of `digitsUnd` after at least one digit was read: Python
integer literals allow a single underscore between two digits, never
doubled, leading or trailing. -/
def digitsUndAux : List Char → Nat → Option Nat
  | [], acc => some acc
  | '_' :: c :: rest, acc =>
    if c.isDigit then digitsUndAux rest (acc * 10 + (c.toNat - 48)) else none
  | ['_'], _ => none
  | c :: rest, acc =>
    if c.isDigit then digitsUndAux rest (acc * 10 + (c.toNat - 48)) else none

/-- The digit run of Python `int(str)` after the optional sign: decimal
digits with single underscores between digits (`int("1_2") = 12`,
`int("_1")`, `int("1_")` and `int("1__2")` raise).  The decimal digits are
modelled for the ASCII range; theorems about integer parsing confine their
format-error clause to ASCII values, since the non-ASCII Unicode decimal
digits `int` also accepts are outside the modelled character set. -/
def digitsUnd : List Char → Option Nat
  | [] => none
  | '_' :: _ => none
  | c :: rest => if c.isDigit then digitsUndAux rest (c.toNat - 48) else none

/-- Python `str.strip()`: drop leading and trailing whitespace. -/
def pyStripChars (cs : List Char) : List Char :=
  ((cs.dropWhile pyIsSpace).reverse.dropWhile pyIsSpace).reverse

/-- Python `int(str)`: surrounding whitespace stripped, an optional sign,
then a nonempty run of decimal digits with optional single underscores
between them; anything else raises `ValueError`. -/
def pyToInt (s : String) : Option Int :=
  match pyStripChars s.data with
  | [] => none
  | '-' :: rest => (digitsUnd rest).map (fun n => -(n : Int))
  | '+' :: rest => (digitsUnd rest).map (fun n => (n : Int))
  | cs => (digitsUnd cs).map (fun n => (n : Int))

/-! ### The parser (`HMM.from_file`) -/

/-- `HMMDatabase.HMM(properties)`: `name` and `model_length` are required
(missing keys raise `KeyError`, `name` first), the identifiers default to
`-1` and `accession` to `None`. -/
def HMM.ofProps (ps : Props) : Except Err HMM :=
  match ps.name with
  | none => .error (.keyError "name")
  | some n =>
    match ps.model_length with
    | none => .error (.keyError "model_length")
    | some l => .ok ⟨-1, -1, -1, ps.accession, n, l⟩

/-- Loop body of `HMM.from_file` over the remaining lines, carrying the
records emitted so far and the accumulated `properties`.  At end of input a
nonempty accumulator is emitted as a final record. -/
def parseLinesAux : List String → List HMM → Props → Except Err (List HMM)
  | [], acc, ps =>
    if ps = emptyProps then .ok acc
    else
      match HMM.ofProps ps with
      | .error e => .error e
      | .ok r => .ok (acc ++ [r])
  | line :: rest, acc, ps =>
    let l := pyRstrip line
    if pyStartsWith l "NAME" then
      parseLinesAux rest acc { ps with name := some (lastField l) }
    else if pyStartsWith l "ACC" then
      parseLinesAux rest acc { ps with accession := some (lastField l) }
    else if pyStartsWith l "LENG" then
      match pyToInt (pyRstrip (lastField l)) with
      | none => .error .formatError
      | some v => parseLinesAux rest acc { ps with model_length := some v }
    else if l = "//" then
      match HMM.ofProps ps with
      | .error e => .error e
      | .ok r => parseLinesAux rest (acc ++ [r]) emptyProps
    else
      parseLinesAux rest acc ps

/-- `HMM.from_file`, applied to the list of lines returned by
`readlines()` (each line may still carry its trailing newline). -/
def fromLines (lines : List String) : Except Err (List HMM) :=
  parseLinesAux lines [] emptyProps

/-! ### The store (Persistence Gateway, modelled from the spec) -/

/-- Modelled from the spec: one row of the `hmm_db` relation. -/
structure HmmDbRow where
  id : Nat
  md5_biosyn_pfam : String
  md5_sub_pfam : String
  deriving DecidableEq, Repr

/-- Modelled from the spec: one row of the `hmm` relation. -/
structure HmmRow where
  id : Nat
  db_id : Int
  name : String
  accession : Option String
  model_length : Int
  deriving DecidableEq, Repr

/-- Modelled from the spec: one row of the `subpfam` relation
(`subprofile_relation(profile_id, parent_profile_id)`). -/
structure SubpfamRow where
  hmm_id : Nat
  parent_hmm_id : Int
  deriving DecidableEq, Repr

/-- Modelled from the spec: the state of the Persistence Gateway.  Rows are
kept in insertion order; `nextId` is the next identifier `insert` will
assign. -/
structure Store where
  hmm_db : List HmmDbRow
  hmm : List HmmRow
  subpfam : List SubpfamRow
  nextId : Nat
  deriving DecidableEq, Repr

/-- A store with no rows. -/
def emptyStore : Store := ⟨[], [], [], 1⟩

/-- Modelled from the spec: `select("hmm_db", "WHERE md5_biosyn_pfam=? AND
md5_sub_pfam=?")`, rows in table order. -/
def selectHmmDb (s : Store) (m1 m2 : String) : List HmmDbRow :=
  s.hmm_db.filter (fun r => r.md5_biosyn_pfam == m1 && r.md5_sub_pfam == m2)

/-- Modelled from the spec: `select("hmm", "WHERE name=? AND db_id=?")`. -/
def selectHmmByNameDb (s : Store) (n : String) (db : Int) : List HmmRow :=
  s.hmm.filter (fun r => r.name == n && r.db_id == db)

/-- Modelled from the spec: `select("hmm", "WHERE accession=? AND db_id=?")`;
a stored NULL accession never equals a string parameter. -/
def selectHmmByAccDb (s : Store) (a : String) (db : Int) : List HmmRow :=
  s.hmm.filter (fun r => r.accession == some a && r.db_id == db)

/-- Modelled from the spec: the join `select("hmm,subpfam", "WHERE
hmm.id=subpfam.hmm_id AND parent_hmm_id=? AND hmm.name=? AND hmm.db_id=?")`,
projected to the `hmm` side (the `id` column read by the caller is
`hmm.id`). -/
def selectSubJoin (s : Store) (pid : Int) (n : String) (db : Int) : List HmmRow :=
  s.hmm.filter
    (fun h =>
      h.name == n && h.db_id == db &&
        s.subpfam.any (fun sp => sp.hmm_id == h.id && sp.parent_hmm_id == pid))

/-- Modelled from the spec: `insert("hmm_db", {...}) -> new_id`. -/
def insertHmmDb (s : Store) (m1 m2 : String) : Nat × Store :=
  (s.nextId,
    { s with
      hmm_db := s.hmm_db ++ [⟨s.nextId, m1, m2⟩]
      nextId := s.nextId + 1 })

/-- Modelled from the spec: `insert("hmm", {...}) -> new_id`. -/
def insertHmm (s : Store) (db : Int) (n : String) (a : Option String) (len : Int) :
    Nat × Store :=
  (s.nextId,
    { s with
      hmm := s.hmm ++ [⟨s.nextId, db, n, a, len⟩]
      nextId := s.nextId + 1 })

/-- Modelled from the spec: `insert("subpfam", {...})`. -/
def insertSubpfam (s : Store) (hid : Nat) (pid : Int) : Nat × Store :=
  (s.nextId,
    { s with
      subpfam := s.subpfam ++ [⟨hid, pid⟩]
      nextId := s.nextId + 1 })

/-! ### Member-level save (`HMM.__save__`) -/

/-- `HMM.__save__(database)`: assert `db_id > -1`; look up `(name, db_id)`;
a unique match with equal `model_length` is adopted, a unique match with a
different `model_length` raises the conflict error, more than one match
fails the `assert len(existing) == 1`; no match inserts a fresh row, plus
the `subpfam` relation row when `parent_id > -1`. -/
def saveHMM (p : HMM) (s : Store) : Except Err HMM × Store :=
  if p.db_id > -1 then
    match selectHmmByNameDb s p.name p.db_id with
    | [] =>
      let ins := insertHmm s p.db_id p.name p.accession p.model_length
      let p1 : HMM := { p with id := (ins.1 : Int) }
      if p.parent_id > -1 then
        (.ok p1, (insertSubpfam ins.2 ins.1 p.parent_id).2)
      else
        (.ok p1, ins.2)
    | [r] =>
      if p.model_length ≠ r.model_length then
        (.error (.conflict p.name), s)
      else
        (.ok { p with id := (r.id : Int) }, s)
    | _ => (.error .assertionFailed, s)
  else
    (.error .assertionFailed, s)

/-! ### The reconciliation engine (`HMMDatabase.save`) -/

/-- Insert-branch loop over `biosyn_pfams`: set `db_id` then `__save__`. -/
def saveBiosyns (db : Int) : List HMM → Store → Except Err (List HMM) × Store
  | [], s => (.ok [], s)
  | p :: rest, s =>
    match saveHMM { p with db_id := db } s with
    | (.error e, s1) => (.error e, s1)
    | (.ok p1, s1) =>
      match saveBiosyns db rest s1 with
      | (.error e, s2) => (.error e, s2)
      | (.ok ps, s2) => (.ok (p1 :: ps), s2)

/-- Insert-branch inner loop over the sub-profiles of one parent: set
`db_id` and `parent_id` then `__save__`. -/
def saveSubList (db pid : Int) : List HMM → Store → Except Err (List HMM) × Store
  | [], s => (.ok [], s)
  | q :: rest, s =>
    match saveHMM { q with db_id := db, parent_id := pid } s with
    | (.error e, s1) => (.error e, s1)
    | (.ok q1, s1) =>
      match saveSubList db pid rest s1 with
      | (.error e, s2) => (.error e, s2)
      | (.ok qs, s2) => (.ok (q1 :: qs), s2)

/-- Insert-branch outer loop over `sub_pfams`: resolve the parent id by
`(accession, db_id)` (IndexError when unresolvable), then save every
sub-profile under it. -/
def saveSubs (db : Int) :
    List (String × List HMM) → Store → Except Err (List (String × List HMM)) × Store
  | [], s => (.ok [], s)
  | (acc, qs) :: rest, s =>
    match (selectHmmByAccDb s acc db).head? with
    | none => (.error .lookupFailed, s)
    | some pr =>
      match saveSubList db (pr.id : Int) qs s with
      | (.error e, s1) => (.error e, s1)
      | (.ok qs1, s1) =>
        match saveSubs db rest s1 with
        | (.error e, s2) => (.error e, s2)
        | (.ok rest1, s2) => (.ok ((acc, qs1) :: rest1), s2)

/-- Existing-branch loop over `biosyn_pfams`: re-derive each id by
`(name, db_id)`; `fetchall()[0]` on an empty result raises. -/
def lookupBiosyns (s : Store) (db : Int) : List HMM → Except Err (List HMM)
  | [] => .ok []
  | p :: rest =>
    match (selectHmmByNameDb s p.name db).head? with
    | none => .error .lookupFailed
    | some r =>
      match lookupBiosyns s db rest with
      | .error e => .error e
      | .ok ps => .ok ({ p with id := (r.id : Int) } :: ps)

/-- Existing-branch inner loop: re-derive each sub-profile id through the
`hmm,subpfam` join keyed by `(parent_id, name, db_id)`. -/
def lookupSubList (s : Store) (db pid : Int) : List HMM → Except Err (List HMM)
  | [] => .ok []
  | q :: rest =>
    match (selectSubJoin s pid q.name db).head? with
    | none => .error .lookupFailed
    | some r =>
      match lookupSubList s db pid rest with
      | .error e => .error e
      | .ok qs => .ok ({ q with parent_id := pid, id := (r.id : Int) } :: qs)

/-- Existing-branch outer loop over `sub_pfams`: resolve the parent id by
`(accession, db_id)`, then re-derive every sub-profile under it. -/
def lookupSubs (s : Store) (db : Int) :
    List (String × List HMM) → Except Err (List (String × List HMM))
  | [] => .ok []
  | (acc, qs) :: rest =>
    match (selectHmmByAccDb s acc db).head? with
    | none => .error .lookupFailed
    | some pr =>
      match lookupSubList s db (pr.id : Int) qs with
      | .error e => .error e
      | .ok qs1 =>
        match lookupSubs s db rest with
        | .error e => .error e
        | .ok rest1 => .ok ((acc, qs1) :: rest1)

/-- The ProfileGroup (`HMMDatabase.__init__`): checksum pair plus the
parsed member records; `sub_pfams` is the insertion-ordered dict from
parent accession to sub-profile list. -/
structure HMMDatabase where
  id : Int
  md5_biosyn_pfam : String
  md5_sub_pfam : String
  biosyn_pfams : List HMM
  sub_pfams : List (String × List HMM)
  deriving DecidableEq, Repr

/-- `HMMDatabase.save`: look up the checksum pair; exactly one match takes
the pure-lookup branch (the disabled conflict check is dead code), more
than one fails the `assert len(existing) == 1`, no match takes the
cascading-insert branch. -/
def HMMDatabase.save (g : HMMDatabase) (s : Store) : Except Err HMMDatabase × Store :=
  match selectHmmDb s g.md5_biosyn_pfam g.md5_sub_pfam with
  | [] =>
    let ins := insertHmmDb s g.md5_biosyn_pfam g.md5_sub_pfam
    match saveBiosyns (ins.1 : Int) g.biosyn_pfams ins.2 with
    | (.error e, s2) => (.error e, s2)
    | (.ok bs, s2) =>
      match saveSubs (ins.1 : Int) g.sub_pfams s2 with
      | (.error e, s3) => (.error e, s3)
      | (.ok kvs, s3) =>
        (.ok { g with id := (ins.1 : Int), biosyn_pfams := bs, sub_pfams := kvs }, s3)
  | [e] =>
    match lookupBiosyns s (e.id : Int) g.biosyn_pfams with
    | .error er => (.error er, s)
    | .ok bs =>
      match lookupSubs s (e.id : Int) g.sub_pfams with
      | .error er => (.error er, s)
      | .ok kvs =>
        (.ok { g with id := (e.id : Int), biosyn_pfams := bs, sub_pfams := kvs }, s)
  | _ => (.error .assertionFailed, s)

/-- The names of all sub-profiles of a group, in dict order. -/
def subNames (kvs : List (String × List HMM)) : List String :=
  kvs.flatMap (fun x => x.2.map (fun q => q.name))

/-- The member names of a group, biosynthetic profiles first, then every
sub-profile list in dict order. -/
def allNames (g : HMMDatabase) : List String :=
  g.biosyn_pfams.map (fun p => p.name) ++ subNames g.sub_pfams

/-! ### Properties used to state and prove the claims -/

/-- Every `hmm` row of `t` belonging to group `gid` has its name in `ns`. -/
def GidNames (gid : Int) (t : Store) (ns : List String) : Prop :=
  ∀ r ∈ t.hmm, r.db_id = gid → r.name ∈ ns

/-- `t2` extends `t` by appended rows only: the `hmm_db` relation is
unchanged, and every appended `hmm` row belongs to group `gid` with a name
from `ns`. -/
def StoreExt (gid : Int) (ns : List String) (t t2 : Store) : Prop :=
  t2.hmm_db = t.hmm_db ∧
  (∃ ext, t2.hmm = t.hmm ++ ext ∧ ∀ r ∈ ext, r.db_id = gid ∧ r.name ∈ ns) ∧
  (∃ ext2, t2.subpfam = t.subpfam ++ ext2)

/-- The sub-profile `q` is backed in `t` by a unique `(name, db_id)` row
whose id it carries and which is related to the parent `pid` in the
`subpfam` relation. -/
def JoinFact (t : Store) (gid pid : Int) (q : HMM) : Prop :=
  ∃ r, r ∈ t.hmm ∧ r.name = q.name ∧ r.db_id = gid ∧ (r.id : Int) = q.id ∧
    (∃ sp ∈ t.subpfam, sp.hmm_id = r.id ∧ sp.parent_hmm_id = pid) ∧
    (∀ r2 ∈ t.hmm, r2.name = q.name → r2.db_id = gid → r2 = r)

/-- Every lookup that the existing-group branch of `save` performs on the
already-assigned group `g` resolves in `s` to exactly the identifiers `g`
carries.  This is the postcondition a successful `save` establishes and the
precondition under which a second `save` is a pure no-op. -/
def Rehydrates (s : Store) (g : HMMDatabase) : Prop :=
  (∃ e, selectHmmDb s g.md5_biosyn_pfam g.md5_sub_pfam = [e] ∧ (e.id : Int) = g.id) ∧
  (∀ p ∈ g.biosyn_pfams,
    ∃ r, (selectHmmByNameDb s p.name g.id).head? = some r ∧ (r.id : Int) = p.id) ∧
  (∀ x ∈ g.sub_pfams,
    ∃ pr, (selectHmmByAccDb s x.1 g.id).head? = some pr ∧
      ∀ q ∈ x.2, (pr.id : Int) = q.parent_id ∧
        ∃ r, (selectSubJoin s (pr.id : Int) q.name g.id).head? = some r ∧
          (r.id : Int) = q.id)

/-! ### Concrete instances used by counterexamples and witnesses -/

/-- A biosynthetic profile named `A` with accession `A`. -/
def hmmTopA : HMM := ⟨-1, -1, -1, some "A", "A", 10⟩

/-- A sub-profile that shares the name `A` with `hmmTopA`. -/
def hmmSubA : HMM := ⟨-1, -1, -1, none, "A", 10⟩

/-- A sub-profile named `B`, distinct from `hmmTopA`. -/
def hmmSubB : HMM := ⟨-1, -1, -1, none, "B", 7⟩

/-- Group in which a sub-profile shares its name with a biosynthetic
profile of the same group. -/
def groupShadow : HMMDatabase := ⟨-1, "m1", "m2", [hmmTopA], [("A", [hmmSubA])]⟩

/-- The in-memory result of the first `save` of `groupShadow`. -/
def groupShadowSaved : HMMDatabase :=
  ⟨1, "m1", "m2", [⟨2, -1, 1, some "A", "A", 10⟩], [("A", [⟨2, 2, 1, none, "A", 10⟩])]⟩

/-- The store after the first `save` of `groupShadow`: the sub-profile
adopted row 2, so no `subpfam` relation row was written. -/
def storeShadow : Store := ⟨[⟨1, "m1", "m2"⟩], [⟨2, 1, "A", some "A", 10⟩], [], 3⟩

/-- Group with pairwise-distinct member names. -/
def groupAB : HMMDatabase := ⟨-1, "m1", "m2", [hmmTopA], [("A", [hmmSubB])]⟩

/-- The in-memory result of the first `save` of `groupAB`. -/
def groupABSaved : HMMDatabase :=
  ⟨1, "m1", "m2", [⟨2, -1, 1, some "A", "A", 10⟩], [("A", [⟨3, 2, 1, none, "B", 7⟩])]⟩

/-- The store after the first `save` of `groupAB`. -/
def storeAB : Store :=
  ⟨[⟨1, "m1", "m2"⟩], [⟨2, 1, "A", some "A", 10⟩, ⟨3, 1, "B", none, 7⟩], [⟨3, 2⟩], 5⟩

/-- A sub-profile filed under parent `A` but itself carrying accession
`B`. -/
def hmmSubQB : HMM := ⟨-1, -1, -1, some "B", "QB", 5⟩

/-- A sub-profile filed under parent accession `B`. -/
def hmmSubR : HMM := ⟨-1, -1, -1, none, "R", 7⟩

/-- Group whose second parent key `B` matches no biosynthetic profile; it
does match the accession of the sub-profile `hmmSubQB` saved under the
first key. -/
def groupChain : HMMDatabase :=
  ⟨-1, "m1", "m2", [hmmTopA], [("A", [hmmSubQB]), ("B", [hmmSubR])]⟩

/-- The in-memory result of saving `groupChain`: the save succeeds and the
sub-profile `R` is parented on the sub-profile row 3, not on any
biosynthetic profile. -/
def groupChainSaved : HMMDatabase :=
  ⟨1, "m1", "m2", [⟨2, -1, 1, some "A", "A", 10⟩],
    [("A", [⟨3, 2, 1, some "B", "QB", 5⟩]), ("B", [⟨5, 3, 1, none, "R", 7⟩])]⟩

/-- The store after saving `groupChain`: the row named `R` was inserted
with `parent_hmm_id = 3`. -/
def storeChain : Store :=
  ⟨[⟨1, "m1", "m2"⟩],
    [⟨2, 1, "A", some "A", 10⟩, ⟨3, 1, "QB", some "B", 5⟩, ⟨5, 1, "R", none, 7⟩],
    [⟨3, 2⟩, ⟨5, 3⟩], 7⟩

/-- A profile resubmitted with length 200 against a stored row of
length 100. -/
def pfamX200 : HMM := ⟨-1, -1, 1, none, "pfamX", 200⟩

/-- A profile resubmitted with the stored length 100 and a parent set. -/
def pfamX100sub : HMM := ⟨-1, 3, 1, none, "pfamX", 100⟩

/-- The stored row for `pfamX` in group 1 with length 100. -/
def pfamXrow : HmmRow := ⟨1, 1, "pfamX", none, 100⟩

/-- A store holding only the `pfamX` row. -/
def storeX : Store := ⟨[], [pfamXrow], [], 2⟩

/-- A stored group row for the checksum pair of the examples. -/
def groupRow12 : HmmDbRow := ⟨1, "m1", "m2"⟩

/-- A store holding only the group row. -/
def storeG : Store := ⟨[groupRow12], [], [], 2⟩

/-- A group with no members at all. -/
def groupEmpty : HMMDatabase := ⟨-1, "m1", "m2", [], []⟩

/-- A member whose `(name, group_id)` row is absent from `storeG`. -/
def missingMember : HMM := ⟨-1, -1, -1, none, "missing", 5⟩

/-- A group whose member cannot be resolved in the existing-group
branch. -/
def groupMissing : HMMDatabase := ⟨-1, "m1", "m2", [missingMember], []⟩

/-- The biosynthetic profile `pfamA`. -/
def hmmPfamA : HMM := ⟨-1, -1, -1, some "pfamA", "pfamA", 100⟩

/-- The sub-profile `pfamA.1`, filed under `pfamA`. -/
def hmmPfamA1 : HMM := ⟨-1, -1, -1, some "pfamA.1", "pfamA.1", 40⟩

/-- The in-memory result of saving the `pfamA` group. -/
def groupPfamASaved : HMMDatabase :=
  ⟨1, "m1", "m2", [⟨2, -1, 1, some "pfamA", "pfamA", 100⟩],
    [("pfamA", [⟨3, 2, 1, some "pfamA.1", "pfamA.1", 40⟩])]⟩

/-- The store after saving the `pfamA` group. -/
def storePfamA : Store :=
  ⟨[⟨1, "m1", "m2"⟩],
    [⟨2, 1, "pfamA", some "pfamA", 100⟩, ⟨3, 1, "pfamA.1", some "pfamA.1", 40⟩],
    [⟨3, 2⟩], 5⟩

/-- A sub-profile for the `saveSubs` witness. -/
def hmmSubS : HMM := ⟨-1, -1, -1, none, "S", 4⟩

/-! ### General list helpers -/

theorem head?_filter_append {α : Type} (P : α → Bool) {xs : List α} (ys : List α) {r : α}
    (h : (xs.filter P).head? = some r) :
    ((xs ++ ys).filter P).head? = some r := by
  rw [List.filter_append]
  cases hxs : xs.filter P with
  | nil => rw [hxs] at h; cases h
  | cons a t => rw [hxs] at h; rw [List.cons_append]; simpa using h

theorem head?_of_all_eq {α : Type} {l : List α} {r : α} (hne : l ≠ [])
    (hall : ∀ x ∈ l, x = r) : l.head? = some r := by
  cases l with
  | nil => exact absurd rfl hne
  | cons a t => simpa using hall a (List.mem_cons_self a t)

/-! ### Claim C2: conflict detection in the member-level save -/

/-- Claim C2: when the store holds exactly one row for `(name, db_id)`,
`HMM.__save__` with a different `model_length` raises the conflict error
and returns the store unchanged, and with the same `model_length` adopts
the stored id and also returns the store unchanged. -/
theorem claimC2_saveHMM_conflict (p : HMM) (r : HmmRow) (s : Store)
    (hdb : p.db_id > -1)
    (hmatch : selectHmmByNameDb s p.name p.db_id = [r]) :
    (p.model_length ≠ r.model_length →
      saveHMM p s = (.error (.conflict p.name), s)) ∧
    (p.model_length = r.model_length →
      saveHMM p s = (.ok { p with id := (r.id : Int) }, s)) := by
  constructor <;> intro h <;> simp [saveHMM, hdb, hmatch, h]

/-- Witness for claim C2 at the concrete input of the spec: stored
`("pfamX", group 1, length 100)`, submitted length 200. -/
theorem claimC2_witness :
    saveHMM pfamX200 storeX = (.error (.conflict "pfamX"), storeX) :=
  (claimC2_saveHMM_conflict pfamX200 pfamXrow storeX (by decide) (by decide)).1
    (by decide)

/-! ### Claim C10: the adoption path performs no insert at all -/

/-- Claim C10: when `HMM.__save__` adopts an existing row of equal
`model_length`, it returns the store unchanged even when `parent_id > -1`;
in particular no `subpfam` relation row is written, the relation insert
being reachable only on the fresh-insert path. -/
theorem claimC10_adopt_no_insert (p : HMM) (r : HmmRow) (s : Store)
    (hdb : p.db_id > -1) (hpar : p.parent_id > -1)
    (hmatch : selectHmmByNameDb s p.name p.db_id = [r])
    (hlen : p.model_length = r.model_length) :
    saveHMM p s = (.ok { p with id := (r.id : Int) }, s) := by
  simp [saveHMM, hdb, hmatch, hlen]

/-- Witness for claim C10: the adopted profile has `parent_id = 3` yet the
store, in particular its `subpfam` relation, is returned unchanged. -/
theorem claimC10_witness :
    saveHMM pfamX100sub storeX = (.ok { pfamX100sub with id := 1 }, storeX) :=
  claimC10_adopt_no_insert pfamX100sub pfamXrow storeX (by decide) (by decide)
    (by decide) (by decide)

/-! ### Claim C4: the existing-group branch never writes -/

/-- Claim C4: whenever an `hmm_db` row matches the checksum pair, `save`
returns the store it was given, whatever else happens: the existing-group
branch performs lookups only. -/
theorem claimC4_existing_branch_pure (g : HMMDatabase) (s : Store)
    (h : selectHmmDb s g.md5_biosyn_pfam g.md5_sub_pfam ≠ []) :
    (HMMDatabase.save g s).2 = s := by
  unfold HMMDatabase.save
  cases hsel : selectHmmDb s g.md5_biosyn_pfam g.md5_sub_pfam with
  | nil => exact absurd hsel h
  | cons e rest =>
    cases rest with
    | nil =>
      cases hb : lookupBiosyns s (e.id : Int) g.biosyn_pfams with
      | error er => simp [hb]
      | ok bs =>
        cases hs : lookupSubs s (e.id : Int) g.sub_pfams with
        | error er => simp [hb, hs]
        | ok kvs => simp [hb, hs]
    | cons e2 rest2 => simp

/-- Witness for claim C4 at a store already holding the group row. -/
theorem claimC4_witness : (HMMDatabase.save groupEmpty storeG).2 = storeG :=
  claimC4_existing_branch_pure groupEmpty storeG (by decide)

/-! ### Claim C6: unresolvable parent accession in the insert branch -/

/-- Counterexample to claim C6 as stated: in `groupChain` the parent key
`B` matches the accession of no biosynthetic profile (first conjunct), yet
`save` does not fail: it resolves `B` to the sub-profile row 3 inserted
under the first key and saves the sub-profile `R` beneath it (row 5 with
`parent_hmm_id = 3` in `storeChain`). -/
theorem claimC6_counterexample :
    (∀ p ∈ groupChain.biosyn_pfams, p.accession ≠ some "B") ∧
    HMMDatabase.save groupChain emptyStore = (.ok groupChainSaved, storeChain) := by
  constructor
  · decide
  · decide

/-- Claim C6 amended: the insert branch fails with the lookup error, before
saving any sub-profile under the offending parent, exactly when the parent
accession matches no already-inserted row of the group in the current
store, be it a biosynthetic profile or a previously saved sub-profile; the
store is returned as it was at the failure point. -/
theorem claimC6_amended_unresolvable_parent (db : Int) (a : String)
    (qs : List HMM) (rest : List (String × List HMM)) (s : Store)
    (h : selectHmmByAccDb s a db = []) :
    saveSubs db ((a, qs) :: rest) s = (.error .lookupFailed, s) := by
  simp [saveSubs, h]

/-- Witness for the amended claim C6: no row carries accession `B`, so the
loop fails at key `B` with the lookup error and an unchanged store. -/
theorem claimC6_amended_witness :
    saveSubs 1 [("B", [hmmSubS])] emptyStore = (.error .lookupFailed, emptyStore) :=
  claimC6_amended_unresolvable_parent 1 "B" [hmmSubS] [] emptyStore (by decide)

/-! ### Claim C7: parser round trip -/

/-- Claim C7: the spec input parses to exactly one record with name `foo`,
accession `PF00001` and model length 120, and the two-block input parses to
the two records in file order. -/
theorem claimC7_parser_round_trip :
    fromLines ["NAME foo\n", "ACC PF00001\n", "LENG 120\n", "//\n"] =
      .ok [⟨-1, -1, -1, some "PF00001", "foo", 120⟩] ∧
    fromLines ["NAME foo\n", "ACC PF00001\n", "LENG 120\n", "//\n",
               "NAME bar\n", "LENG 50\n", "//\n"] =
      .ok [⟨-1, -1, -1, some "PF00001", "foo", 120⟩,
           ⟨-1, -1, -1, none, "bar", 50⟩] := by
  constructor
  · decide
  · decide

/-! ### Claim C8: unterminated trailing block -/

/-- Counterexample to claim C8 as stated: the input `LENG 50` ends in an
unterminated block with one field set (`model_length`), but instead of
emitting that record the parser raises the missing-key error for `name`
from the record constructor. -/
theorem claimC8_counterexample :
    fromLines ["LENG 50\n"] = .error (.keyError "name") := by
  decide

/-- Claim C8 amended: a trailing unterminated block is still emitted when
the fields required by the record constructor, `name` and `model_length`,
are both set (first conjunct, stated on the end-of-input state of the
parser loop); a trailing block with no field set emits nothing (second
conjunct); and the spec example ending in `NAME bar`, `LENG 50` with no
closing separator yields the `bar` record after the terminated block
(third conjunct). -/
theorem claimC8_amended_trailing_block :
    (∀ (acc : List HMM) (n : String) (l : Int) (a : Option String),
      parseLinesAux [] acc ⟨some n, a, some l⟩ = .ok (acc ++ [⟨-1, -1, -1, a, n, l⟩])) ∧
    (∀ acc : List HMM, parseLinesAux [] acc emptyProps = .ok acc) ∧
    fromLines ["NAME foo\n", "LENG 120\n", "//\n", "NAME bar\n", "LENG 50\n"] =
      .ok [⟨-1, -1, -1, none, "foo", 120⟩, ⟨-1, -1, -1, none, "bar", 50⟩] := by
  refine ⟨?_, ?_, by decide⟩
  · intro acc n l a
    simp [parseLinesAux, emptyProps, HMM.ofProps]
  · intro acc
    simp [parseLinesAux]

/-! ### Claim C9: field extraction from header lines -/

/-- Counterexample to claim C9 as stated: on the tab-separated line
`NAME<tab>foo` the last whitespace-separated field is `foo`, but the code
splits on the space character only and assigns the whole line
`NAME<tab>foo` as the name. -/
theorem claimC9_counterexample :
    fromLines ["NAME\tfoo\n", "LENG 5\n"] =
      .ok [⟨-1, -1, -1, none, "NAME\tfoo", 5⟩] := by
  decide

/-! ### Claim C5: the existing-group branch fails on unresolvable members -/

theorem lookupBiosyns_ok_resolves (s : Store) (db : Int) :
    ∀ (l bs : List HMM), lookupBiosyns s db l = .ok bs →
      ∀ p ∈ l, selectHmmByNameDb s p.name db ≠ [] := by
  intro l
  induction l with
  | nil => intro bs _ p hp; cases hp
  | cons p rest ih =>
    intro bs h q hq
    simp only [lookupBiosyns] at h
    cases hh : (selectHmmByNameDb s p.name db).head? with
    | none => rw [hh] at h; cases h
    | some r =>
      rw [hh] at h
      cases hrec : lookupBiosyns s db rest with
      | error e => rw [hrec] at h; cases h
      | ok ps =>
        cases hq with
        | head => intro hnil; rw [hnil] at hh; cases hh
        | tail _ hq2 => exact ih ps hrec q hq2

theorem lookupSubList_ok_resolves (s : Store) (db pid : Int) :
    ∀ (qs out : List HMM), lookupSubList s db pid qs = .ok out →
      ∀ q ∈ qs, selectSubJoin s pid q.name db ≠ [] := by
  intro qs
  induction qs with
  | nil => intro out _ q hq; cases hq
  | cons q rest ih =>
    intro out h q2 hq2
    simp only [lookupSubList] at h
    cases hh : (selectSubJoin s pid q.name db).head? with
    | none => rw [hh] at h; cases h
    | some r =>
      rw [hh] at h
      cases hrec : lookupSubList s db pid rest with
      | error e => rw [hrec] at h; cases h
      | ok qs1 =>
        cases hq2 with
        | head => intro hnil; rw [hnil] at hh; cases hh
        | tail _ hq3 => exact ih qs1 hrec q2 hq3

theorem lookupSubs_ok_resolves (s : Store) (db : Int) :
    ∀ (kvs out : List (String × List HMM)), lookupSubs s db kvs = .ok out →
      ∀ x ∈ kvs, ∃ pr, (selectHmmByAccDb s x.1 db).head? = some pr ∧
        ∀ q ∈ x.2, selectSubJoin s (pr.id : Int) q.name db ≠ [] := by
  intro kvs
  induction kvs with
  | nil => intro out _ x hx; cases hx
  | cons kv rest ih =>
    rcases kv with ⟨a, qs⟩
    intro out h x hx
    simp only [lookupSubs] at h
    split at h
    · cases h
    · rename_i pr hh
      split at h
      · cases h
      · rename_i qs1 hql
        split at h
        · cases h
        · rename_i rest1 hrec
          cases hx with
          | head => exact ⟨pr, hh, lookupSubList_ok_resolves s db (pr.id : Int) qs qs1 hql⟩
          | tail _ hx2 => exact ih rest1 hrec x hx2

/-- Claim C5: in the existing-group branch (exactly one stored group row
for the checksum pair), if any member of the in-memory group cannot be
resolved by lookup — a biosynthetic profile with no `(name, group id)`
row, a parent accession with no matching row, or a sub-profile the join
cannot find under the resolved parent — then `save` raises an error and
returns the store unchanged instead of inserting the missing member. -/
theorem claimC5_unresolvable_member_fails (g : HMMDatabase) (s : Store) (e : HmmDbRow)
    (hsel : selectHmmDb s g.md5_biosyn_pfam g.md5_sub_pfam = [e])
    (hbad :
      (∃ p ∈ g.biosyn_pfams, selectHmmByNameDb s p.name (e.id : Int) = []) ∨
      (∃ x ∈ g.sub_pfams, selectHmmByAccDb s x.1 (e.id : Int) = []) ∨
      (∃ x ∈ g.sub_pfams, ∃ pr,
        (selectHmmByAccDb s x.1 (e.id : Int)).head? = some pr ∧
        ∃ q ∈ x.2, selectSubJoin s (pr.id : Int) q.name (e.id : Int) = [])) :
    ∃ er, HMMDatabase.save g s = (.error er, s) := by
  cases hb : lookupBiosyns s (e.id : Int) g.biosyn_pfams with
  | error er => exact ⟨er, by unfold HMMDatabase.save; simp [hsel, hb]⟩
  | ok bs =>
    cases hs2 : lookupSubs s (e.id : Int) g.sub_pfams with
    | error er => exact ⟨er, by unfold HMMDatabase.save; simp [hsel, hb, hs2]⟩
    | ok kvs =>
      exfalso
      rcases hbad with ⟨p, hp, hnil⟩ | ⟨x, hx, hnil⟩ | ⟨x, hx, pr, hpr, q, hq, hnil⟩
      · exact lookupBiosyns_ok_resolves s (e.id : Int) g.biosyn_pfams bs hb p hp hnil
      · obtain ⟨pr, hpr, -⟩ := lookupSubs_ok_resolves s (e.id : Int) g.sub_pfams kvs hs2 x hx
        rw [hnil] at hpr
        cases hpr
      · obtain ⟨pr2, hpr2, hjoins⟩ :=
          lookupSubs_ok_resolves s (e.id : Int) g.sub_pfams kvs hs2 x hx
        rw [hpr] at hpr2
        cases hpr2
        exact hjoins q hq hnil

/-- Witness for claim C5: the group row exists in `storeG` but the member
`missing` has no stored row, so `save` fails and leaves the store as it
was. -/
theorem claimC5_witness :
    ∃ er, HMMDatabase.save groupMissing storeG = (.error er, storeG) :=
  claimC5_unresolvable_member_fails groupMissing storeG groupRow12 (by decide)
    (Or.inl ⟨missingMember, by decide, by decide⟩)

/-! ### Claim C3: cascading insert wires the parent link correctly -/

/-- Claim C3: saving a new group made of one biosynthetic profile `p`
(top-level, so `parent_id = -1` per the data model) and one sub-profile `q`
filed under the accession of `p`, into a store with no row for the
checksum pair and no `hmm` row of the upcoming group id, succeeds only in
states where the persisted sub-profile carries `parent_id` equal to the
biosynthetic profile's persisted `id`, and both backing rows carry the new
group's id. -/
theorem claimC3_cascading_insert (i : Int) (m1 m2 a : String) (p q : HMM) (s : Store)
    (hacc : p.accession = some a)
    (hptop : p.parent_id = -1)
    (hfresh : ∀ r ∈ s.hmm, r.db_id ≠ (s.nextId : Int))
    (hsel : selectHmmDb s m1 m2 = [])
    (g2 : HMMDatabase) (s2 : Store)
    (hok : HMMDatabase.save ⟨i, m1, m2, [p], [(a, [q])]⟩ s = (.ok g2, s2)) :
    ∃ P Q, g2.biosyn_pfams = [P] ∧ g2.sub_pfams = [(a, [Q])] ∧
      Q.parent_id = P.id ∧
      (∃ rP ∈ s2.hmm, (rP.id : Int) = P.id ∧ rP.db_id = g2.id) ∧
      (∃ rQ ∈ s2.hmm, (rQ.id : Int) = Q.id ∧ rQ.db_id = g2.id) := by
  have hgt : (-1 : Int) < (s.nextId : Int) := by omega
  have hgt2 : (-1 : Int) < (s.nextId : Int) + 1 := by omega
  have hnamenil : ∀ (n : String),
      s.hmm.filter (fun r => r.name == n && r.db_id == (s.nextId : Int)) = [] := by
    intro n
    exact List.filter_eq_nil_iff.2 (fun r hr => by simp [hfresh r hr])
  have haccnil : ∀ (b : String),
      s.hmm.filter (fun r => r.accession == some b && r.db_id == (s.nextId : Int)) = [] := by
    intro b
    exact List.filter_eq_nil_iff.2 (fun r hr => by simp [hfresh r hr])
  have haccfind : ∀ (b : String),
      s.hmm.find? (fun r => r.accession == some b && r.db_id == (s.nextId : Int)) = none := by
    intro b
    exact List.find?_eq_none.2 (fun r hr => by simp [hfresh r hr])
  have hnamefind : ∀ (n : String),
      s.hmm.find? (fun r => r.name == n && r.db_id == (s.nextId : Int)) = none := by
    intro n
    exact List.find?_eq_none.2 (fun r hr => by simp [hfresh r hr])
  simp only [HMMDatabase.save, hsel] at hok
  by_cases hpq : p.name = q.name
  · by_cases hlen : q.model_length = p.model_length
    · -- same name, same length: the sub-profile adopts the row of `p`
      simp [saveBiosyns, saveSubs, saveSubList, saveHMM, selectHmmByNameDb,
        selectHmmByAccDb, insertHmmDb, insertHmm, insertSubpfam,
        List.filter_append, hnamenil, haccnil, haccfind, hnamefind,
        hacc, hptop, hgt, hgt2, hpq, hlen] at hok
      obtain ⟨hg2, hs2⟩ := hok
      subst hg2
      subst hs2
      refine ⟨_, _, rfl, rfl, rfl, ?_, ?_⟩ <;>
        exact ⟨⟨s.nextId + 1, (s.nextId : Int), q.name, some a, p.model_length⟩,
          by simp, by push_cast; ring, rfl⟩
    · -- same name, different length: conflict error, contradicting success
      simp [saveBiosyns, saveSubs, saveSubList, saveHMM, selectHmmByNameDb,
        selectHmmByAccDb, insertHmmDb, insertHmm, insertSubpfam,
        List.filter_append, hnamenil, haccnil, haccfind, hnamefind,
        hacc, hptop, hgt, hgt2, hpq, hlen] at hok
  · -- distinct names: fresh insert of the sub-profile with its relation row
    simp [saveBiosyns, saveSubs, saveSubList, saveHMM, selectHmmByNameDb,
      selectHmmByAccDb, insertHmmDb, insertHmm, insertSubpfam,
      List.filter_append, hnamenil, haccnil, haccfind, hnamefind,
      hacc, hptop, hgt, hgt2, hpq] at hok
    obtain ⟨hg2, hs2⟩ := hok
    subst hg2
    subst hs2
    refine ⟨_, _, rfl, rfl, rfl, ?_, ?_⟩
    · exact ⟨⟨s.nextId + 1, (s.nextId : Int), p.name, some a, p.model_length⟩,
        by simp, by push_cast; ring, rfl⟩
    · exact ⟨⟨s.nextId + 1 + 1, (s.nextId : Int), q.name, q.accession, q.model_length⟩,
        by simp, by push_cast; ring, rfl⟩

/-- Witness for claim C3 at the concrete `pfamA` group of the spec. -/
theorem claimC3_witness :
    ∃ P Q, groupPfamASaved.biosyn_pfams = [P] ∧
      groupPfamASaved.sub_pfams = [("pfamA", [Q])] ∧
      Q.parent_id = P.id ∧
      (∃ rP ∈ storePfamA.hmm, (rP.id : Int) = P.id ∧ rP.db_id = groupPfamASaved.id) ∧
      (∃ rQ ∈ storePfamA.hmm, (rQ.id : Int) = Q.id ∧ rQ.db_id = groupPfamASaved.id) :=
  claimC3_cascading_insert (-1) "m1" "m2" "pfamA" hmmPfamA hmmPfamA1 emptyStore
    (by decide) (by decide) (by decide) (by decide) groupPfamASaved storePfamA
    (by decide)

/-! ### Claim C9 amended: string lemmas -/

theorem splitSpace_ne_nil (cs : List Char) : splitSpace cs ≠ [] := by
  induction cs with
  | nil => simp [splitSpace]
  | cons c rest ih =>
    simp only [splitSpace]
    split
    · simp
    · cases h : splitSpace rest with
      | nil => simp
      | cons g gs => simp

theorem splitSpace_no_space {v : List Char} (hv : ∀ c ∈ v, c ≠ ' ') :
    splitSpace v = [v] := by
  induction v with
  | nil => rfl
  | cons c rest ih =>
    have hc : c ≠ ' ' := hv c (List.mem_cons_self c rest)
    have hrest : splitSpace rest = [rest] :=
      ih (fun d hd => hv d (List.mem_cons_of_mem c hd))
    simp [splitSpace, hc, hrest]

theorem splitSpace_append_length (xs v : List Char) :
    2 ≤ (splitSpace (xs ++ ' ' :: v)).length := by
  induction xs with
  | nil =>
    simp only [List.nil_append, splitSpace]
    have := splitSpace_ne_nil v
    cases h : splitSpace v with
    | nil => exact absurd h this
    | cons g gs => simp
  | cons c rest ih =>
    simp only [List.cons_append, splitSpace]
    split
    · simpa using List.length_pos.mpr (splitSpace_ne_nil (rest ++ ' ' :: v))
    · cases h : splitSpace (rest ++ ' ' :: v) with
      | nil => exact absurd h (splitSpace_ne_nil _)
      | cons g gs =>
        rw [h] at ih
        simpa using ih

theorem splitSpace_getLast_append (xs : List Char) {v : List Char}
    (hv : ∀ c ∈ v, c ≠ ' ') :
    (splitSpace (xs ++ ' ' :: v)).getLast? = some v := by
  induction xs with
  | nil =>
    simp only [List.nil_append, splitSpace, if_pos rfl]
    rw [splitSpace_no_space hv]
    rfl
  | cons c rest ih =>
    simp only [List.cons_append, splitSpace]
    split
    · cases h : splitSpace (rest ++ ' ' :: v) with
      | nil => exact absurd h (splitSpace_ne_nil _)
      | cons g gs =>
        rw [h] at ih
        rw [List.getLast?_cons_cons]
        exact ih
    · cases h : splitSpace (rest ++ ' ' :: v) with
      | nil => exact absurd h (splitSpace_ne_nil _)
      | cons g gs =>
        have hlen := splitSpace_append_length rest v
        rw [h] at ih hlen
        cases gs with
        | nil => simp at hlen
        | cons g2 gs2 =>
          rw [List.getLast?_cons_cons] at ih ⊢
          exact ih

theorem rstrip_chars_append (cs : List Char) {vd : List Char} (h1 : vd ≠ [])
    (h2 : ∀ c ∈ vd, pyIsSpace c = false) :
    ((cs ++ vd).reverse.dropWhile pyIsSpace).reverse = cs ++ vd := by
  rw [List.reverse_append]
  cases hv : vd.reverse with
  | nil => exact absurd (by simpa using congrArg List.reverse hv) h1
  | cons c t =>
    have hc : c ∈ vd := by
      rw [← List.mem_reverse, hv]; exact List.mem_cons_self c t
    rw [List.cons_append, List.dropWhile_cons, if_neg (by simp [h2 c hc]),
      ← List.cons_append, ← hv, ← List.reverse_append, List.reverse_reverse]

theorem pyRstrip_line (x w v : String) (h1 : v.data ≠ [])
    (h2 : ∀ c ∈ v.data, pyIsSpace c = false) :
    pyRstrip (x ++ w ++ " " ++ v) = x ++ w ++ " " ++ v := by
  have hshape : (x ++ w ++ " " ++ v).data = (x.data ++ (w.data ++ [' '])) ++ v.data := by
    simp [String.data_append]
  unfold pyRstrip
  rw [hshape, rstrip_chars_append _ h1 h2, ← hshape]

theorem lastField_line (x w v : String) (h2 : ∀ c ∈ v.data, pyIsSpace c = false) :
    lastField (x ++ w ++ " " ++ v) = v := by
  have hshape : (x ++ w ++ " " ++ v).data = (x.data ++ w.data) ++ (' ' :: v.data) := by
    simp [String.data_append]
  have hnos : ∀ c ∈ v.data, c ≠ ' ' := by
    intro c hc he
    have h3 := h2 c hc
    rw [he] at h3
    exact absurd h3 (by decide)
  unfold lastField
  rw [hshape, List.getLastD_eq_getLast?, splitSpace_getLast_append _ hnos]
  rfl

/-- Claim C9 amended: on a header line the assigned value is the last
space-separated field (Python splits on the space character only), with
the `LENG` value parsed as a Python integer literal — optional sign, then
decimal digits with single underscores between them — and a format error
raised when it is non-numeric.  The field `v` is nonempty and free of
Python whitespace; `w` stands for the arbitrary middle of the line.  The
format-error clause is stated for ASCII values only, since `int` also
accepts non-ASCII Unicode decimal digits, which are outside the modelled
character set (a numeric value accepted by the model is ASCII by
construction, so the acceptance clause needs no such bound). -/
theorem claimC9_amended_last_space_field (w v : String) (rest : List String)
    (acc : List HMM) (ps : Props)
    (hv : v ≠ "") (hws : ∀ c ∈ v.data, pyIsSpace c = false) :
    (parseLinesAux (("NAME " ++ w ++ " " ++ v) :: rest) acc ps =
       parseLinesAux rest acc { ps with name := some v }) ∧
    (parseLinesAux (("ACC " ++ w ++ " " ++ v) :: rest) acc ps =
       parseLinesAux rest acc { ps with accession := some v }) ∧
    (∀ k : Int, pyToInt v = some k →
       parseLinesAux (("LENG " ++ w ++ " " ++ v) :: rest) acc ps =
         parseLinesAux rest acc { ps with model_length := some k }) ∧
    ((∀ c ∈ v.data, c.toNat < 128) → pyToInt v = none →
       parseLinesAux (("LENG " ++ w ++ " " ++ v) :: rest) acc ps =
         .error .formatError) := by
  have hvd : v.data ≠ [] := by
    intro h
    apply hv
    cases v with
    | mk d => simp at h; rw [h]
  have hdN : ("NAME " ++ w ++ " " ++ v).data =
      'N' :: 'A' :: 'M' :: 'E' :: ' ' :: (w.data ++ (' ' :: v.data)) := by
    simp [String.data_append]
  have hdA : ("ACC " ++ w ++ " " ++ v).data =
      'A' :: 'C' :: 'C' :: ' ' :: (w.data ++ (' ' :: v.data)) := by
    simp [String.data_append]
  have hdL : ("LENG " ++ w ++ " " ++ v).data =
      'L' :: 'E' :: 'N' :: 'G' :: ' ' :: (w.data ++ (' ' :: v.data)) := by
    simp [String.data_append]
  have hswNN : pyStartsWith ("NAME " ++ w ++ " " ++ v) "NAME" = true := by
    unfold pyStartsWith; rw [hdN]; rfl
  have hswAN : pyStartsWith ("ACC " ++ w ++ " " ++ v) "NAME" = false := by
    unfold pyStartsWith; rw [hdA]; rfl
  have hswAA : pyStartsWith ("ACC " ++ w ++ " " ++ v) "ACC" = true := by
    unfold pyStartsWith; rw [hdA]; rfl
  have hswLN : pyStartsWith ("LENG " ++ w ++ " " ++ v) "NAME" = false := by
    unfold pyStartsWith; rw [hdL]; rfl
  have hswLA : pyStartsWith ("LENG " ++ w ++ " " ++ v) "ACC" = false := by
    unfold pyStartsWith; rw [hdL]; rfl
  have hswLL : pyStartsWith ("LENG " ++ w ++ " " ++ v) "LENG" = true := by
    unfold pyStartsWith; rw [hdL]; rfl
  have hrsN := pyRstrip_line "NAME " w v hvd hws
  have hrsA := pyRstrip_line "ACC " w v hvd hws
  have hrsL := pyRstrip_line "LENG " w v hvd hws
  have hlfN := lastField_line "NAME " w v hws
  have hlfA := lastField_line "ACC " w v hws
  have hlfL := lastField_line "LENG " w v hws
  have hrsv : pyRstrip v = v := by
    have hshape : v.data = ([] : List Char) ++ v.data := by simp
    unfold pyRstrip
    conv_lhs => rw [hshape]
    rw [rstrip_chars_append _ hvd hws]
    simp
  refine ⟨?_, ?_, ?_, ?_⟩
  · simp only [parseLinesAux, hrsN, hswNN, if_true, hlfN]
  · simp only [parseLinesAux, hrsA, hswAN, hswAA, if_true, Bool.false_eq_true,
      if_false, hlfA]
  · intro k hk
    simp only [parseLinesAux, hrsL, hswLN, hswLA, hswLL, if_true,
      Bool.false_eq_true, if_false, hlfL, hrsv, hk]
  · intro _ hk
    simp only [parseLinesAux, hrsL, hswLN, hswLA, hswLL, if_true,
      Bool.false_eq_true, if_false, hlfL, hrsv, hk]

/-- Witness for the amended claim C9 at a concrete multi-field line. -/
theorem claimC9_amended_witness :
    (parseLinesAux (("NAME " ++ "x1" ++ " " ++ "foo") :: []) [] emptyProps =
       parseLinesAux [] [] { emptyProps with name := some "foo" }) ∧
    (parseLinesAux (("ACC " ++ "x1" ++ " " ++ "foo") :: []) [] emptyProps =
       parseLinesAux [] [] { emptyProps with accession := some "foo" }) ∧
    (∀ k : Int, pyToInt "foo" = some k →
       parseLinesAux (("LENG " ++ "x1" ++ " " ++ "foo") :: []) [] emptyProps =
         parseLinesAux [] [] { emptyProps with model_length := some k }) ∧
    ((∀ c ∈ ("foo" : String).data, c.toNat < 128) → pyToInt "foo" = none →
       parseLinesAux (("LENG " ++ "x1" ++ " " ++ "foo") :: []) [] emptyProps =
         .error .formatError) :=
  claimC9_amended_last_space_field "x1" "foo" [] [] emptyProps (by decide) (by decide)

/-! ### Claim C1: machinery -/

theorem HMM.set_id_self (p : HMM) : ({ p with id := p.id } : HMM) = p := rfl

theorem lookupBiosyns_of_resolved (s : Store) (db : Int) :
    ∀ l : List HMM,
      (∀ p ∈ l, ∃ r, (selectHmmByNameDb s p.name db).head? = some r ∧ (r.id : Int) = p.id) →
      lookupBiosyns s db l = .ok l := by
  intro l
  induction l with
  | nil => intro _; rfl
  | cons p rest ih =>
    intro hres
    obtain ⟨r, hr, hid⟩ := hres p (List.mem_cons_self p rest)
    have hrec := ih (fun q hq => hres q (List.mem_cons_of_mem p hq))
    simp only [lookupBiosyns, hr, hrec]
    rw [hid, HMM.set_id_self]

theorem lookupSubList_of_resolved (s : Store) (db pid : Int) :
    ∀ qs : List HMM,
      (∀ q ∈ qs, pid = q.parent_id ∧
        ∃ r, (selectSubJoin s pid q.name db).head? = some r ∧ (r.id : Int) = q.id) →
      lookupSubList s db pid qs = .ok qs := by
  intro qs
  induction qs with
  | nil => intro _; rfl
  | cons q rest ih =>
    intro hres
    obtain ⟨hpid, r, hr, hid⟩ := hres q (List.mem_cons_self q rest)
    have hrec := ih (fun q2 hq2 => hres q2 (List.mem_cons_of_mem q hq2))
    simp only [lookupSubList, hr, hrec]
    rw [hid, hpid]

theorem lookupSubs_of_resolved (s : Store) (db : Int) :
    ∀ kvs : List (String × List HMM),
      (∀ x ∈ kvs, ∃ pr, (selectHmmByAccDb s x.1 db).head? = some pr ∧
        ∀ q ∈ x.2, (pr.id : Int) = q.parent_id ∧
          ∃ r, (selectSubJoin s (pr.id : Int) q.name db).head? = some r ∧
            (r.id : Int) = q.id) →
      lookupSubs s db kvs = .ok kvs := by
  intro kvs
  induction kvs with
  | nil => intro _; rfl
  | cons kv rest ih =>
    rcases kv with ⟨a, qs⟩
    intro hres
    obtain ⟨pr, hpr, hqs⟩ := hres (a, qs) (List.mem_cons_self (a, qs) rest)
    have hrec := ih (fun x hx => hres x (List.mem_cons_of_mem (a, qs) hx))
    have hlist := lookupSubList_of_resolved s db (pr.id : Int) qs hqs
    simp only [lookupSubs, hpr, hlist, hrec]

/-- A second `save` from a state that rehydrates `g` is a pure no-op: it
returns `g` itself and the unchanged store. -/
theorem rehydrates_save (g : HMMDatabase) (s : Store) (h : Rehydrates s g) :
    HMMDatabase.save g s = (.ok g, s) := by
  obtain ⟨⟨e, hse, hei⟩, hbio, hsub⟩ := h
  have hb : lookupBiosyns s (e.id : Int) g.biosyn_pfams = .ok g.biosyn_pfams := by
    rw [hei]; exact lookupBiosyns_of_resolved s g.id g.biosyn_pfams hbio
  have hs2 : lookupSubs s (e.id : Int) g.sub_pfams = .ok g.sub_pfams := by
    rw [hei]
    exact lookupSubs_of_resolved s g.id g.sub_pfams (fun x hx => hsub x hx)
  simp only [HMMDatabase.save, hse, hb, hs2]
  rw [hei]

theorem lookupBiosyns_ok_facts (s : Store) (db : Int) :
    ∀ (l l' : List HMM), lookupBiosyns s db l = .ok l' →
      ∀ p' ∈ l', ∃ r, (selectHmmByNameDb s p'.name db).head? = some r ∧
        (r.id : Int) = p'.id := by
  intro l
  induction l with
  | nil =>
    intro l' h p' hp'
    cases h
    cases hp'
  | cons p rest ih =>
    intro l' h p' hp'
    simp only [lookupBiosyns] at h
    split at h
    · cases h
    · rename_i r hr
      split at h
      · cases h
      · rename_i ps hrec
        cases h
        cases hp' with
        | head => exact ⟨r, hr, rfl⟩
        | tail _ hmem => exact ih ps hrec p' hmem

theorem lookupSubList_ok_facts (s : Store) (db pid : Int) :
    ∀ (qs qs' : List HMM), lookupSubList s db pid qs = .ok qs' →
      ∀ q' ∈ qs', q'.parent_id = pid ∧
        ∃ r, (selectSubJoin s pid q'.name db).head? = some r ∧ (r.id : Int) = q'.id := by
  intro qs
  induction qs with
  | nil =>
    intro qs' h q' hq'
    cases h
    cases hq'
  | cons q rest ih =>
    intro qs' h q' hq'
    simp only [lookupSubList] at h
    split at h
    · cases h
    · rename_i r hr
      split at h
      · cases h
      · rename_i qs1 hrec
        cases h
        cases hq' with
        | head => exact ⟨rfl, r, hr, rfl⟩
        | tail _ hmem => exact ih qs1 hrec q' hmem

theorem lookupSubs_ok_facts (s : Store) (db : Int) :
    ∀ (kvs kvs' : List (String × List HMM)), lookupSubs s db kvs = .ok kvs' →
      ∀ x' ∈ kvs', ∃ pr, (selectHmmByAccDb s x'.1 db).head? = some pr ∧
        ∀ q' ∈ x'.2, (pr.id : Int) = q'.parent_id ∧
          ∃ r, (selectSubJoin s (pr.id : Int) q'.name db).head? = some r ∧
            (r.id : Int) = q'.id := by
  intro kvs
  induction kvs with
  | nil =>
    intro kvs' h x' hx'
    cases h
    cases hx'
  | cons kv rest ih =>
    rcases kv with ⟨a, qs⟩
    intro kvs' h x' hx'
    simp only [lookupSubs] at h
    split at h
    · cases h
    · rename_i pr hpr
      split at h
      · cases h
      · rename_i qs1 hql
        split at h
        · cases h
        · rename_i rest1 hrec
          cases h
          cases hx' with
          | head =>
            refine ⟨pr, hpr, ?_⟩
            intro q' hq'
            obtain ⟨hqp, r, hr, hrid⟩ := lookupSubList_ok_facts s db (pr.id : Int) qs qs1 hql q' hq'
            exact ⟨hqp.symm, r, hr, hrid⟩
          | tail _ hmem => exact ih rest1 hrec x' hmem

/-- A successful run of the existing-group branch leaves the store
untouched and ends in a state that rehydrates the returned group. -/
theorem save_existing_rehydrates (g : HMMDatabase) (s : Store) (e : HmmDbRow)
    (g1 : HMMDatabase) (s1 : Store)
    (hse : selectHmmDb s g.md5_biosyn_pfam g.md5_sub_pfam = [e])
    (h : HMMDatabase.save g s = (.ok g1, s1)) :
    s1 = s ∧ Rehydrates s g1 := by
  simp only [HMMDatabase.save, hse] at h
  split at h
  · cases h
  · rename_i bs hb
    split at h
    · cases h
    · rename_i kvs hs2
      cases h
      refine ⟨rfl, ⟨e, hse, rfl⟩, ?_, ?_⟩
      · intro p' hp'
        exact lookupBiosyns_ok_facts s (e.id : Int) g.biosyn_pfams bs hb p' hp'
      · intro x' hx'
        exact lookupSubs_ok_facts s (e.id : Int) g.sub_pfams kvs hs2 x' hx'

/-- Fresh-insert equation for the member-level save: with no stored
`(name, db_id)` row the profile is inserted, the relation row following
exactly when `parent_id > -1`. -/
theorem saveHMM_fresh (p : HMM) (t : Store) (hdb : -1 < p.db_id)
    (hnone : selectHmmByNameDb t p.name p.db_id = []) :
    saveHMM p t =
      (.ok { p with id := (t.nextId : Int) },
       { t with
          hmm := t.hmm ++ [⟨t.nextId, p.db_id, p.name, p.accession, p.model_length⟩]
          subpfam :=
            t.subpfam ++ (if -1 < p.parent_id then [⟨t.nextId, p.parent_id⟩] else [])
          nextId := if -1 < p.parent_id then t.nextId + 1 + 1 else t.nextId + 1 }) := by
  unfold saveHMM
  rw [if_pos hdb, hnone]
  unfold insertHmm insertSubpfam
  by_cases hp : -1 < p.parent_id
  · rw [if_pos hp, if_pos hp, if_pos hp]
  · rw [if_neg hp, if_neg hp, if_neg hp]
    simp

theorem head?_select_name_append (t : Store) (ext : List HmmRow) (n : String) (db : Int)
    {r : HmmRow} (h : (selectHmmByNameDb t n db).head? = some r) :
    (selectHmmByNameDb { t with hmm := t.hmm ++ ext, subpfam := t.subpfam, nextId := t.nextId } n db).head? = some r := by
  unfold selectHmmByNameDb at h ⊢
  exact head?_filter_append _ ext h

theorem joinFact_lift {t t2 : Store} {gid pid : Int} {q : HMM}
    (hj : JoinFact t gid pid q)
    (ext : List HmmRow) (e2 : List SubpfamRow)
    (hhmm : t2.hmm = t.hmm ++ ext)
    (hext : ∀ r2 ∈ ext, r2.db_id = gid → r2.name ≠ q.name)
    (hsub : t2.subpfam = t.subpfam ++ e2) :
    JoinFact t2 gid pid q := by
  obtain ⟨r, hmem, hname, hdb, hid, ⟨sp, hsp, hsp1, hsp2⟩, huniq⟩ := hj
  refine ⟨r, ?_, hname, hdb, hid, ⟨sp, ?_, hsp1, hsp2⟩, ?_⟩
  · rw [hhmm]; exact List.mem_append_left _ hmem
  · rw [hsub]; exact List.mem_append_left _ hsp
  · intro r2 hr2 hr2n hr2d
    rw [hhmm] at hr2
    rcases List.mem_append.1 hr2 with hleft | hright
    · exact huniq r2 hleft hr2n hr2d
    · exact absurd hr2n (hext r2 hright hr2d)

theorem joinFact_head {t : Store} {gid pid : Int} {q : HMM}
    (h : JoinFact t gid pid q) :
    ∃ r, (selectSubJoin t pid q.name gid).head? = some r ∧ (r.id : Int) = q.id := by
  obtain ⟨r, hmem, hname, hdb, hid, ⟨sp, hsp, hsp1, hsp2⟩, huniq⟩ := h
  refine ⟨r, ?_, hid⟩
  apply head?_of_all_eq
  · have hrin : r ∈ selectSubJoin t pid q.name gid := by
      unfold selectSubJoin
      refine List.mem_filter.2 ⟨hmem, ?_⟩
      simp only [Bool.and_eq_true, beq_iff_eq, List.any_eq_true]
      exact ⟨⟨hname, hdb⟩, sp, hsp, by simp [hsp1, hsp2]⟩
    intro hnil
    rw [hnil] at hrin
    cases hrin
  · intro x hx
    unfold selectSubJoin at hx
    obtain ⟨hxm, hxp⟩ := List.mem_filter.1 hx
    simp only [Bool.and_eq_true, beq_iff_eq, List.any_eq_true] at hxp
    exact huniq x hxm hxp.1.1 hxp.1.2

theorem saveBiosyns_fresh_spec (gid : Int) (hgid : -1 < gid) :
    ∀ (l : List HMM) (t : Store) (ns : List String) (l' : List HMM) (t' : Store),
      saveBiosyns gid l t = (.ok l', t') →
      GidNames gid t ns →
      (l.map (fun p => p.name)).Nodup →
      (∀ n ∈ l.map (fun p => p.name), n ∉ ns) →
      StoreExt gid (l.map (fun p => p.name)) t t' ∧
      GidNames gid t' (ns ++ l.map (fun p => p.name)) ∧
      (∀ p' ∈ l', ∃ r, (selectHmmByNameDb t' p'.name gid).head? = some r ∧
        (r.id : Int) = p'.id) := by
  intro l
  induction l with
  | nil =>
    intro t ns l' t' h hg _ _
    simp only [saveBiosyns] at h
    cases h
    refine ⟨⟨rfl, ⟨[], by simp, by simp⟩, ⟨[], by simp⟩⟩, by simpa using hg, ?_⟩
    intro p' hp'
    cases hp'
  | cons p rest ih =>
    intro t ns l' t' h hg hnd hdisj
    simp only [saveBiosyns] at h
    have hpn : p.name ∉ ns := hdisj p.name (by simp)
    have hnone : selectHmmByNameDb t p.name gid = [] := by
      refine List.filter_eq_nil_iff.2 ?_
      intro r hr hpred
      simp only [Bool.and_eq_true, beq_iff_eq] at hpred
      exact hpn (hpred.1 ▸ hg r hr hpred.2)
    split at h
    · rename_i e s1 heq
      rw [saveHMM_fresh _ _ hgid hnone] at heq
      cases heq
    · rename_i p1 s1 heq
      rw [saveHMM_fresh _ _ hgid hnone] at heq
      cases heq
      split at h
      · cases h
      · rename_i ps s2 hrec
        cases h
        have hg1 : GidNames gid
            { t with
              hmm := t.hmm ++
                [⟨t.nextId, gid, p.name, p.accession, p.model_length⟩]
              subpfam := t.subpfam ++
                (if -1 < p.parent_id then [⟨t.nextId, p.parent_id⟩] else [])
              nextId := if -1 < p.parent_id then t.nextId + 1 + 1 else t.nextId + 1 }
            (ns ++ [p.name]) := by
          intro r hr hdb
          rcases List.mem_append.1 hr with hl | hr1
          · exact List.mem_append_left _ (hg r hl hdb)
          · rw [List.mem_singleton.1 hr1]
            exact List.mem_append_right _ (by simp)
        have hnd1 : (rest.map (fun p => p.name)).Nodup := (List.nodup_cons.1 (by simpa using hnd)).2
        have hhead : p.name ∉ rest.map (fun p => p.name) := (List.nodup_cons.1 (by simpa using hnd)).1
        have hdisj1 : ∀ n ∈ rest.map (fun p => p.name), n ∉ ns ++ [p.name] := by
          intro n hn hmem
          rcases List.mem_append.1 hmem with h1 | h1
          · exact hdisj n (by simp [hn]) h1
          · rw [List.mem_singleton.1 h1] at hn
            exact hhead hn
        obtain ⟨⟨hdb1, ⟨ext, hext, hextP⟩, ⟨e2, he2⟩⟩, hg2, hfacts⟩ :=
          ih _ (ns ++ [p.name]) ps _ hrec hg1 hnd1 hdisj1
        refine ⟨⟨by rw [hdb1], ?_, ?_⟩, ?_, ?_⟩
        · refine ⟨⟨t.nextId, gid, p.name, p.accession, p.model_length⟩ :: ext,
            by rw [hext]; simp, ?_⟩
          intro r hme
          rcases List.mem_cons.1 hme with h1 | h1
          · rw [h1]; exact ⟨rfl, by simp⟩
          · obtain ⟨h2, h3⟩ := hextP r h1
            exact ⟨h2, by simp; exact Or.inr (by simpa using h3)⟩
        · refine ⟨(if -1 < p.parent_id then [⟨t.nextId, p.parent_id⟩] else []) ++ e2,
            by rw [he2]; simp⟩
        · have hassoc : (ns ++ [p.name]) ++ rest.map (fun p => p.name) =
              ns ++ (p :: rest).map (fun p => p.name) := by simp
          rwa [hassoc] at hg2
        · intro p' hp'
          rcases List.mem_cons.1 hp' with h1 | h1
          · subst h1
            refine ⟨⟨t.nextId, gid, p.name, p.accession, p.model_length⟩, ?_, rfl⟩
            have hat1 : (selectHmmByNameDb
                { t with
                  hmm := t.hmm ++
                    [⟨t.nextId, gid, p.name, p.accession, p.model_length⟩]
                  subpfam := t.subpfam ++
                    (if -1 < p.parent_id then [⟨t.nextId, p.parent_id⟩] else [])
                  nextId := if -1 < p.parent_id then t.nextId + 1 + 1 else t.nextId + 1 }
                p.name gid).head? =
                some ⟨t.nextId, gid, p.name, p.accession, p.model_length⟩ := by
              unfold selectHmmByNameDb at hnone ⊢
              simp only [List.filter_append, hnone]
              simp
            unfold selectHmmByNameDb at hat1 ⊢
            rw [hext]
            exact head?_filter_append _ ext hat1
          · exact hfacts p' h1

theorem saveHMM_fresh_parent (p : HMM) (t : Store) (hdb : -1 < p.db_id)
    (hpar : -1 < p.parent_id)
    (hnone : selectHmmByNameDb t p.name p.db_id = []) :
    saveHMM p t =
      (.ok { p with id := (t.nextId : Int) },
       { t with
          hmm := t.hmm ++ [⟨t.nextId, p.db_id, p.name, p.accession, p.model_length⟩]
          subpfam := t.subpfam ++ [⟨t.nextId, p.parent_id⟩]
          nextId := t.nextId + 1 + 1 }) := by
  rw [saveHMM_fresh p t hdb hnone, if_pos hpar, if_pos hpar]

theorem saveSubList_fresh_spec (gid pid : Int) (hgid : -1 < gid) (hpid : -1 < pid) :
    ∀ (qs : List HMM) (t : Store) (ns : List String) (qs' : List HMM) (t' : Store),
      saveSubList gid pid qs t = (.ok qs', t') →
      GidNames gid t ns →
      (qs.map (fun q => q.name)).Nodup →
      (∀ n ∈ qs.map (fun q => q.name), n ∉ ns) →
      StoreExt gid (qs.map (fun q => q.name)) t t' ∧
      GidNames gid t' (ns ++ qs.map (fun q => q.name)) ∧
      qs'.map (fun q => q.name) = qs.map (fun q => q.name) ∧
      (∀ q' ∈ qs', q'.parent_id = pid ∧ JoinFact t' gid pid q') := by
  intro qs
  induction qs with
  | nil =>
    intro t ns qs' t' h hg _ _
    simp only [saveSubList] at h
    cases h
    refine ⟨⟨rfl, ⟨[], by simp, by simp⟩, ⟨[], by simp⟩⟩, by simpa using hg, rfl, ?_⟩
    intro q' hq'
    cases hq'
  | cons q rest ih =>
    intro t ns qs' t' h hg hnd hdisj
    simp only [saveSubList] at h
    have hqn : q.name ∉ ns := hdisj q.name (by simp)
    have hnone : selectHmmByNameDb t q.name gid = [] := by
      refine List.filter_eq_nil_iff.2 ?_
      intro r hr hpred
      simp only [Bool.and_eq_true, beq_iff_eq] at hpred
      exact hqn (hpred.1 ▸ hg r hr hpred.2)
    split at h
    · rename_i e s1 heq
      rw [saveHMM_fresh_parent _ _ hgid hpid hnone] at heq
      cases heq
    · rename_i q1 s1 heq
      rw [saveHMM_fresh_parent _ _ hgid hpid hnone] at heq
      cases heq
      split at h
      · cases h
      · rename_i ps s2 hrec
        cases h
        have hg1 : GidNames gid
            { t with
              hmm := t.hmm ++ [⟨t.nextId, gid, q.name, q.accession, q.model_length⟩]
              subpfam := t.subpfam ++ [⟨t.nextId, pid⟩]
              nextId := t.nextId + 1 + 1 }
            (ns ++ [q.name]) := by
          intro r hr hdb
          rcases List.mem_append.1 hr with hl | hr1
          · exact List.mem_append_left _ (hg r hl hdb)
          · rw [List.mem_singleton.1 hr1]
            exact List.mem_append_right _ (by simp)
        have hnd1 : (rest.map (fun q => q.name)).Nodup := (List.nodup_cons.1 (by simpa using hnd)).2
        have hhead : q.name ∉ rest.map (fun q => q.name) := (List.nodup_cons.1 (by simpa using hnd)).1
        have hdisj1 : ∀ n ∈ rest.map (fun q => q.name), n ∉ ns ++ [q.name] := by
          intro n hn hmem
          rcases List.mem_append.1 hmem with h1 | h1
          · exact hdisj n (by simp [hn]) h1
          · rw [List.mem_singleton.1 h1] at hn
            exact hhead hn
        obtain ⟨⟨hdb1, ⟨ext, hext, hextP⟩, ⟨e2, he2⟩⟩, hg2, hnames, hfacts⟩ :=
          ih _ (ns ++ [q.name]) ps _ hrec hg1 hnd1 hdisj1
        have hjoin1 : JoinFact
            { t with
              hmm := t.hmm ++ [⟨t.nextId, gid, q.name, q.accession, q.model_length⟩]
              subpfam := t.subpfam ++ [⟨t.nextId, pid⟩]
              nextId := t.nextId + 1 + 1 }
            gid pid { q with db_id := gid, parent_id := pid, id := (t.nextId : Int) } := by
          refine ⟨⟨t.nextId, gid, q.name, q.accession, q.model_length⟩,
            List.mem_append_right _ (by simp), rfl, rfl, rfl,
            ⟨⟨t.nextId, pid⟩, List.mem_append_right _ (by simp), rfl, rfl⟩, ?_⟩
          intro r2 hr2 hr2n hr2d
          rcases List.mem_append.1 hr2 with hl | hr1
          · exfalso
            have := List.filter_eq_nil_iff.1 hnone r2 hl
            simp only [Bool.and_eq_true, beq_iff_eq] at this
            exact this ⟨hr2n, hr2d⟩
          · exact List.mem_singleton.1 hr1
        refine ⟨⟨by rw [hdb1], ?_, ?_⟩, ?_, by simp [hnames], ?_⟩
        · refine ⟨⟨t.nextId, gid, q.name, q.accession, q.model_length⟩ :: ext,
            by rw [hext]; simp, ?_⟩
          intro r hme
          rcases List.mem_cons.1 hme with h1 | h1
          · rw [h1]; exact ⟨rfl, by simp⟩
          · obtain ⟨h2, h3⟩ := hextP r h1
            exact ⟨h2, by simp [h3]⟩
        · exact ⟨⟨t.nextId, pid⟩ :: e2, by rw [he2]; simp⟩
        · have hassoc : (ns ++ [q.name]) ++ rest.map (fun q => q.name) =
              ns ++ (q :: rest).map (fun q => q.name) := by simp
          rwa [hassoc] at hg2
        · intro q' hq'
          rcases List.mem_cons.1 hq' with h1 | h1
          · subst h1
            refine ⟨rfl, ?_⟩
            refine joinFact_lift hjoin1 ext e2 hext ?_ he2
            intro r2 hr2 _ hr2n
            obtain ⟨-, h3⟩ := hextP r2 hr2
            exact hhead (hr2n ▸ h3)
          · exact hfacts q' h1

theorem saveSubs_fresh_spec (gid : Int) (hgid : -1 < gid) :
    ∀ (kvs : List (String × List HMM)) (t : Store) (ns : List String)
      (kvs' : List (String × List HMM)) (t' : Store),
      saveSubs gid kvs t = (.ok kvs', t') →
      GidNames gid t ns →
      (subNames kvs).Nodup →
      (∀ n ∈ subNames kvs, n ∉ ns) →
      StoreExt gid (subNames kvs) t t' ∧
      GidNames gid t' (ns ++ subNames kvs) ∧
      (∀ x' ∈ kvs', ∃ pr, (selectHmmByAccDb t' x'.1 gid).head? = some pr ∧
        ∀ q' ∈ x'.2, q'.parent_id = (pr.id : Int) ∧ JoinFact t' gid (pr.id : Int) q') := by
  intro kvs
  induction kvs with
  | nil =>
    intro t ns kvs' t' h hg _ _
    simp only [saveSubs] at h
    cases h
    refine ⟨⟨rfl, ⟨[], by simp, by simp⟩, ⟨[], by simp⟩⟩, by simpa [subNames] using hg, ?_⟩
    intro x' hx'
    cases hx'
  | cons kv rest ih =>
    rcases kv with ⟨a, qs⟩
    intro t ns kvs' t' h hg hnd hdisj
    have hsplit : subNames ((a, qs) :: rest) =
        qs.map (fun q => q.name) ++ subNames rest := by simp [subNames]
    rw [hsplit] at hnd hdisj
    obtain ⟨hnd1, hnd2, hdisjoint⟩ := List.nodup_append.1 hnd
    simp only [saveSubs] at h
    split at h
    · cases h
    · rename_i pr hpr
      split at h
      · cases h
      · rename_i qs1 s1 hql
        split at h
        · cases h
        · rename_i rest1 s2 hrec
          cases h
          have hpid : (-1 : Int) < (pr.id : Int) := by omega
          obtain ⟨⟨hdb1, ⟨ext1, hext1, hextP1⟩, ⟨e21, he21⟩⟩, hg1, hnames1, hfacts1⟩ :=
            saveSubList_fresh_spec gid (pr.id : Int) hgid hpid qs t ns qs1 s1 hql hg
              hnd1 (fun n hn => hdisj n (List.mem_append_left _ hn))
          have hdisj2 : ∀ n ∈ subNames rest, n ∉ ns ++ qs.map (fun q => q.name) := by
            intro n hn hmem
            rcases List.mem_append.1 hmem with h1 | h1
            · exact hdisj n (List.mem_append_right _ hn) h1
            · exact hdisjoint h1 hn
          obtain ⟨⟨hdb2, ⟨ext2, hext2, hextP2⟩, ⟨e22, he22⟩⟩, hg3, hfacts2⟩ :=
            ih s1 (ns ++ qs.map (fun q => q.name)) rest1 t' hrec hg1 hnd2 hdisj2
          refine ⟨⟨by rw [hdb2, hdb1], ?_, ?_⟩, ?_, ?_⟩
          · refine ⟨ext1 ++ ext2, by rw [hext2, hext1]; simp, ?_⟩
            intro r hme
            rcases List.mem_append.1 hme with h1 | h1
            · obtain ⟨h2, h3⟩ := hextP1 r h1
              exact ⟨h2, by rw [hsplit]; exact List.mem_append_left _ h3⟩
            · obtain ⟨h2, h3⟩ := hextP2 r h1
              exact ⟨h2, by rw [hsplit]; exact List.mem_append_right _ h3⟩
          · exact ⟨e21 ++ e22, by rw [he22, he21]; simp⟩
          · have hassoc : (ns ++ qs.map (fun q => q.name)) ++ subNames rest =
                ns ++ subNames ((a, qs) :: rest) := by rw [hsplit]; simp
            rwa [hassoc] at hg3
          · intro x' hx'
            rcases List.mem_cons.1 hx' with h1 | h1
            · subst h1
              refine ⟨pr, ?_, ?_⟩
              · unfold selectHmmByAccDb at hpr ⊢
                rw [hext2, hext1, List.append_assoc]
                exact head?_filter_append _ (ext1 ++ ext2) hpr
              · intro q' hq'
                obtain ⟨hqp, hjf⟩ := hfacts1 q' hq'
                refine ⟨hqp, joinFact_lift hjf ext2 e22 hext2 ?_ he22⟩
                intro r2 hr2 _ hr2n
                obtain ⟨-, h3⟩ := hextP2 r2 hr2
                have hq'name : q'.name ∈ qs.map (fun q => q.name) := by
                  rw [← hnames1]
                  exact List.mem_map_of_mem _ hq'
                exact hdisjoint hq'name (hr2n ▸ h3)
            · exact hfacts2 x' h1

/-- A successful run of the cascading-insert branch, from a store with no
matching checksum row and no `hmm` row of the upcoming group id, with
pairwise-distinct member names, ends in a state that rehydrates the
returned group. -/
theorem save_insert_rehydrates (g : HMMDatabase) (s0 : Store) (g1 : HMMDatabase) (s1 : Store)
    (hfresh : ∀ r ∈ s0.hmm, r.db_id ≠ (s0.nextId : Int))
    (hsel : selectHmmDb s0 g.md5_biosyn_pfam g.md5_sub_pfam = [])
    (hnodup : (allNames g).Nodup)
    (h : HMMDatabase.save g s0 = (.ok g1, s1)) :
    Rehydrates s1 g1 := by
  obtain ⟨hndB, hndS, hdisjBS⟩ := List.nodup_append.1 hnodup
  have hgid : (-1 : Int) < (s0.nextId : Int) := by omega
  simp only [HMMDatabase.save, hsel, insertHmmDb] at h
  split at h
  · cases h
  · rename_i bs s2 hbio
    split at h
    · cases h
    · rename_i kvs s3 hsubs
      cases h
      have hgA : GidNames (s0.nextId : Int)
          { s0 with
            hmm_db := s0.hmm_db ++ [⟨s0.nextId, g.md5_biosyn_pfam, g.md5_sub_pfam⟩]
            nextId := s0.nextId + 1 } [] := by
        intro r hr hdb
        exact absurd hdb (hfresh r hr)
      obtain ⟨⟨hdbB, ⟨extB, hextB, hextPB⟩, ⟨e2B, he2B⟩⟩, hgB, hfactsB⟩ :=
        saveBiosyns_fresh_spec (s0.nextId : Int) hgid g.biosyn_pfams _ [] bs s2 hbio hgA
          hndB (fun n _ hmem => absurd hmem (List.not_mem_nil n))
      have hgB' : GidNames (s0.nextId : Int) s2 (g.biosyn_pfams.map (fun p => p.name)) := by
        simpa using hgB
      obtain ⟨⟨hdbS, ⟨extS, hextS, hextPS⟩, ⟨e2S, he2S⟩⟩, hgS, hfactsS⟩ :=
        saveSubs_fresh_spec (s0.nextId : Int) hgid g.sub_pfams s2
          (g.biosyn_pfams.map (fun p => p.name)) kvs s1 hsubs hgB' hndS
          (fun n hn hmem => hdisjBS hmem hn)
      refine ⟨⟨⟨s0.nextId, g.md5_biosyn_pfam, g.md5_sub_pfam⟩, ?_, rfl⟩, ?_, ?_⟩
      · unfold selectHmmDb at hsel ⊢
        rw [hdbS, hdbB]
        simp only [List.filter_append, hsel]
        simp
      · intro p' hp'
        obtain ⟨r, hr, hid⟩ := hfactsB p' hp'
        refine ⟨r, ?_, hid⟩
        unfold selectHmmByNameDb at hr ⊢
        rw [hextS]
        exact head?_filter_append _ extS hr
      · intro x' hx'
        obtain ⟨pr, hpr, hq⟩ := hfactsS x' hx'
        refine ⟨pr, hpr, ?_⟩
        intro q' hq'
        obtain ⟨hqp, hjf⟩ := hq q' hq'
        exact ⟨hqp.symm, joinFact_head hjf⟩

/-- Claim C1 amended: starting from a well-formed store (every stored
profile row belongs to an already-issued group id) and a group whose
member names are pairwise distinct, if the first `save` succeeds then a
second `save` of the returned group returns exactly the same group (all
persisted identifiers unchanged) and the same store (zero inserts). -/
theorem claimC1_amended_idempotent (g : HMMDatabase) (s0 : Store)
    (g1 : HMMDatabase) (s1 : Store)
    (hwf : ∀ r ∈ s0.hmm, r.db_id < (s0.nextId : Int))
    (hnodup : (allNames g).Nodup)
    (h1 : HMMDatabase.save g s0 = (.ok g1, s1)) :
    HMMDatabase.save g1 s1 = (.ok g1, s1) := by
  cases hsel : selectHmmDb s0 g.md5_biosyn_pfam g.md5_sub_pfam with
  | nil =>
    exact rehydrates_save g1 s1
      (save_insert_rehydrates g s0 g1 s1
        (fun r hr => by have := hwf r hr; omega) hsel hnodup h1)
  | cons e rest =>
    cases rest with
    | nil =>
      obtain ⟨hs, hre⟩ := save_existing_rehydrates g s0 e g1 s1 hsel h1
      subst hs
      exact rehydrates_save g1 s1 hre
    | cons e2 rest2 =>
      exfalso
      simp only [HMMDatabase.save, hsel] at h1
      simp at h1

/-- Witness for the amended claim C1 at the concrete group `groupAB`. -/
theorem claimC1_amended_witness :
    HMMDatabase.save groupABSaved storeAB = (.ok groupABSaved, storeAB) :=
  claimC1_amended_idempotent groupAB emptyStore groupABSaved storeAB
    (by decide) (by decide) (by decide)

/-- Counterexample to claim C1 as stated: in `groupShadow` the sub-profile
shares its name with the biosynthetic profile, so during the first `save`
it adopts row 2 without writing a `subpfam` relation row; the first `save`
succeeds (first conjunct), but the second `save` does not reproduce the
identifiers: its join lookup finds no relation row and it fails with the
lookup error (second conjunct). -/
theorem claimC1_counterexample :
    HMMDatabase.save groupShadow emptyStore = (.ok groupShadowSaved, storeShadow) ∧
    HMMDatabase.save groupShadowSaved storeShadow = (.error .lookupFailed, storeShadow) := by
  constructor
  · decide
  · decide

end Bigslice
